import Mathlib

/-
Verification of the JavaScript lexer / parser / evaluator core of the
sababook browser engine (src/saba_core/src/renderer/js/).

The embedding translates:
  - the token type of renderer/js/token.rs (type declared by its uses in
    ast.rs; the lexer itself is modelled from the spec, see tokenize below),
  - the AST (Node, Program) and recursive-descent parser of renderer/js/ast.rs,
  - the tree-walking evaluator (JsRuntime::eval / execute) and the
    RuntimeValue arithmetic of renderer/js/runtime.rs.

Rust Rc-shared children become plain nested values; the Peekable token
stream becomes an explicit List Token threaded through each production
(peek = pattern match on the head, next = drop the head).  Rust panics
(the todo bang catch-all of eval and u64 overflow aborts of the checked
debug build) are modelled as the error side of Except.
-/

namespace Saba

/-- One lexical unit, mirroring the Token enum of renderer/js/token.rs as
declared by its uses in ast.rs: Keyword, Punctuator, Identifier,
StringLiteral and Number (u64 modelled as Nat). -/
inductive Token where
  | Keyword : String → Token
  | Punctuator : Char → Token
  | Identifier : String → Token
  | StringLiteral : String → Token
  | Number : Nat → Token
deriving DecidableEq

/-- AST node, mirroring the Node enum of ast.rs.  Option (Rc Node) child
references become Option Node; the Vec of declarations of
VariableDeclaration becomes a List. -/
inductive Node where
  | ExpressionStatement : Option Node → Node
  | AdditiveExpression : Char → Option Node → Option Node → Node
  | AssignmentExpression : Char → Option Node → Option Node → Node
  | MemberExpression : Option Node → Option Node → Node
  | NumericLiteral : Nat → Node
  | VariableDeclaration : List (Option Node) → Node
  | VariableDeclarator : Option Node → Option Node → Node
  | Identifier : String → Node
  | StringLiteral : String → Node

/-- Program of ast.rs: an ordered list of top-level statement nodes.  The
body field holds the nodes themselves (parse_ast only pushes present
nodes). -/
structure Program where
  body : List Node

/-- RuntimeValue of runtime.rs: currently only the Number variant holding
a u64 (modelled as Nat; the arithmetic below enforces the 64-bit range). -/
inductive RuntimeValue where
  | Number : Nat → RuntimeValue
deriving DecidableEq

/-- A Rust panic reachable from the evaluator: the todo bang catch-all of
JsRuntime::eval, and the overflow / underflow aborts of the native u64
plus and minus in a checked (debug) build. -/
inductive Panic where
  | todo : Panic
  | addOverflow : Panic
  | subUnderflow : Panic
deriving DecidableEq

/-- The Add impl for RuntimeValue in runtime.rs: destructure both numbers
(irrefutable, Number is the only variant) and apply the native u64 plus,
which aborts on overflow in a checked (debug) build — modelled as the
addOverflow panic — and yields the exact sum otherwise. -/
def RuntimeValue.add : RuntimeValue → RuntimeValue → Except Panic RuntimeValue
  | RuntimeValue.Number a, RuntimeValue.Number b =>
    if a + b < 2 ^ 64 then Except.ok (RuntimeValue.Number (a + b))
    else Except.error Panic.addOverflow

/-- The Sub impl for RuntimeValue in runtime.rs: the native u64 minus,
which aborts on underflow in a checked (debug) build — modelled as the
subUnderflow panic — and yields the exact difference otherwise. -/
def RuntimeValue.sub : RuntimeValue → RuntimeValue → Except Panic RuntimeValue
  | RuntimeValue.Number a, RuntimeValue.Number b =>
    if b ≤ a then Except.ok (RuntimeValue.Number (a - b))
    else Except.error Panic.subUnderflow

/-- JsRuntime::eval of runtime.rs: evaluate one optional node reference.
A None node evaluates to None.  ExpressionStatement evaluates its child;
AdditiveExpression evaluates left then right, propagating None, and
applies plus or minus; AssignmentExpression and MemberExpression evaluate
to None; NumericLiteral yields a Number.  Every other node shape
(VariableDeclaration, VariableDeclarator, Identifier, StringLiteral)
falls into the todo bang catch-all, i.e. panics. -/
def eval : Option Node → Except Panic (Option RuntimeValue)
  | none => Except.ok none
  | some (Node.ExpressionStatement expr) => eval expr
  | some (Node.AdditiveExpression op l r) =>
    match eval l with
    | Except.error p => Except.error p
    | Except.ok none => Except.ok none
    | Except.ok (some leftValue) =>
      match eval r with
      | Except.error p => Except.error p
      | Except.ok none => Except.ok none
      | Except.ok (some rightValue) =>
        if op = '+' then (RuntimeValue.add leftValue rightValue).map some
        else if op = '-' then (RuntimeValue.sub leftValue rightValue).map some
        else Except.ok none
  | some (Node.AssignmentExpression _ _ _) => Except.ok none
  | some (Node.MemberExpression _ _) => Except.ok none
  | some (Node.NumericLiteral v) => Except.ok (some (RuntimeValue.Number v))
  | some (Node.VariableDeclaration _) => Except.error Panic.todo
  | some (Node.VariableDeclarator _ _) => Except.error Panic.todo
  | some (Node.Identifier _) => Except.error Panic.todo
  | some (Node.StringLiteral _) => Except.error Panic.todo

/-- The statement loop of JsRuntime::execute: evaluate each body node in
order, discarding produced values; a panic inside eval unwinds out of the
whole execution. -/
def runBody : List Node → Except Panic Unit
  | [] => Except.ok ()
  | n :: rest =>
    match eval (some n) with
    | Except.error p => Except.error p
    | Except.ok _ => runBody rest

/-- JsRuntime::execute of runtime.rs: run every statement of the program
body in source order. -/
def execute (p : Program) : Except Panic Unit := runBody p.body

/-- Whitespace characters skipped by the lexer. -/
def isWsChar (c : Char) : Bool := c = ' ' || c = '\n' || c = '\t' || c = '\r'

/-- Decimal digit test for the lexer. -/
def isDigitChar (c : Char) : Bool := '0' ≤ c && c ≤ '9'

/-- Letter test: a leading letter starts an identifier-or-keyword run. -/
def isAlphaChar (c : Char) : Bool := ('a' ≤ c && c ≤ 'z') || ('A' ≤ c && c ≤ 'Z')

/-- Characters that may continue an identifier run. -/
def isIdentChar (c : Char) : Bool := isAlphaChar c || isDigitChar c

/-- The double-quote character, which delimits string literals. -/
def quoteChar : Char := Char.ofNat 34

/-- The fixed single-character punctuator set of the lexer. -/
def punctuatorChars : List Char := ['+', '-', '=', ';', '(', ')', '{', '}', ',']

/-- Decimal value of a digit run. -/
def numValue (run : List Char) : Nat :=
  run.foldl (fun acc c => acc * 10 + (c.toNat - 48)) 0

/-- Modelled from the spec: the JsLexer of renderer/js/token.rs, whose
source file is not under src/.  Per the spec: whitespace is skipped; a
leading digit starts a Number run of digits parsed as an unsigned
integer; a leading letter starts an identifier-or-keyword run, with the
fixed keyword set containing var; a leading double quote starts a
StringLiteral terminated by the matching quote; a fixed punctuator set
becomes single-character Punctuator tokens; anything else is skipped.
The first Nat is fuel, consumed once per step; since every step also
consumes at least one character, fuel equal to the character count is
always sufficient, so the wrapper tokenize below is exact. -/
def lexChars : Nat → List Char → List Token
  | 0, _ => []
  | _, [] => []
  | fuel + 1, c :: rest =>
    if isWsChar c then lexChars fuel rest
    else if isDigitChar c then
      Token.Number (numValue (List.takeWhile isDigitChar (c :: rest))) ::
        lexChars fuel (List.dropWhile isDigitChar (c :: rest))
    else if isAlphaChar c then
      let run := List.takeWhile isIdentChar (c :: rest)
      (if String.mk run = "var" then Token.Keyword (String.mk run)
       else Token.Identifier (String.mk run)) ::
        lexChars fuel (List.dropWhile isIdentChar (c :: rest))
    else if c = quoteChar then
      Token.StringLiteral (String.mk (List.takeWhile (fun d => !(d = quoteChar)) rest)) ::
        lexChars fuel (List.drop 1 (List.dropWhile (fun d => !(d = quoteChar)) rest))
    else if c ∈ punctuatorChars then Token.Punctuator c :: lexChars fuel rest
    else lexChars fuel rest

/-- Modelled from the spec: tokenize turns source text into the finite
token sequence the parser consumes. -/
def tokenize (s : String) : List Token := lexChars s.data.length s.data

/-- JsParser::primary_expression of ast.rs: take the next token; an
Identifier, StringLiteral or Number token becomes the corresponding
node, anything else yields no node.  In every case the token is
consumed. -/
def primary_expression : List Token → Option Node × List Token
  | [] => (none, [])
  | t :: rest =>
    match t with
    | Token.Identifier value => (some (Node.Identifier value), rest)
    | Token.StringLiteral value => (some (Node.StringLiteral value), rest)
    | Token.Number value => (some (Node.NumericLiteral value), rest)
    | _ => (none, rest)

/-- JsParser::member_assignment of ast.rs: delegates to
primary_expression. -/
def member_assignment (ts : List Token) : Option Node × List Token :=
  primary_expression ts

/-- JsParser::left_hand_side_expression of ast.rs: delegates to
member_assignment. -/
def left_hand_side_expression (ts : List Token) : Option Node × List Token :=
  member_assignment ts

/-- Relation between a production's input stream and its remaining
stream: the production never grows the stream, and consumes at least one
token whenever the input is nonempty. -/
def Consumes (ts rest : List Token) : Prop :=
  rest.length ≤ ts.length ∧ (ts ≠ [] → rest.length < ts.length)

lemma left_hand_side_consumes (ts : List Token) :
    Consumes ts (left_hand_side_expression ts).2 := by
  cases ts with
  | nil => exact ⟨Nat.le_refl 0, by simp⟩
  | cons t rest =>
    cases t <;>
      simp [left_hand_side_expression, member_assignment, primary_expression, Consumes]

/-- The left-hand-side parse bundled with its stream-consumption fact,
used by additive_expression to justify termination. -/
def left_hand_side_expression_c (ts : List Token) :
    { r : Option Node × List Token // Consumes ts r.2 } :=
  ⟨left_hand_side_expression ts, left_hand_side_consumes ts⟩

mutual

/-- JsParser::assignment_expression of ast.rs: parse an additive
expression; if the next token is the punctuator equal sign, consume it
and build an AssignmentExpression whose right side is a recursive
assignment-expression parse, else return the additive expression.  The
Consumes value is carried to justify termination. -/
def assignment_expression (ts : List Token) :
    { r : Option Node × List Token // Consumes ts r.2 } :=
  match additive_expression ts with
  | ⟨(expr, ts1), ha⟩ =>
    match h : ts1 with
    | [] => ⟨(expr, []), ha⟩
    | Token.Punctuator '=' :: rest =>
      match assignment_expression rest with
      | ⟨(right, ts2), hb⟩ =>
        ⟨(some (Node.AssignmentExpression '=' expr right), ts2), by
          have h1 : (Token.Punctuator '=' :: rest).length ≤ ts.length := ha.1
          have h2 : ts2.length ≤ rest.length := hb.1
          simp only [List.length_cons] at h1
          constructor
          · show ts2.length ≤ ts.length
            omega
          · intro hne
            show ts2.length < ts.length
            omega⟩
    | t2 :: r2 => ⟨(expr, t2 :: r2), ha⟩
termination_by (ts.length, 1)
decreasing_by
  · apply Prod.Lex.right
    omega
  · apply Prod.Lex.left
    have h1 : (Token.Punctuator '=' :: rest).length ≤ ts.length := ha.1
    simp only [List.length_cons] at h1
    omega

/-- JsParser::additive_expression of ast.rs: parse a left-hand-side
expression; if the next token is the punctuator plus or minus, consume
it and build an AdditiveExpression whose right operand is an
assignment-expression parse (not an additive one), else return the left
expression. -/
def additive_expression (ts : List Token) :
    { r : Option Node × List Token // Consumes ts r.2 } :=
  match left_hand_side_expression_c ts with
  | ⟨(left, ts1), hl⟩ =>
    match h : ts1 with
    | [] => ⟨(left, []), hl⟩
    | Token.Punctuator c :: rest =>
      if c = '+' ∨ c = '-' then
        match assignment_expression rest with
        | ⟨(right, ts2), hb⟩ =>
          ⟨(some (Node.AdditiveExpression c left right), ts2), by
            have h2 : (Token.Punctuator c :: rest).length ≤ ts.length := hl.1
            have h3 : ts2.length ≤ rest.length := hb.1
            simp only [List.length_cons] at h2
            constructor
            · show ts2.length ≤ ts.length
              omega
            · intro hne
              show ts2.length < ts.length
              omega⟩
      else ⟨(left, Token.Punctuator c :: rest), hl⟩
    | t2 :: r2 => ⟨(left, t2 :: r2), hl⟩
termination_by (ts.length, 0)
decreasing_by
  apply Prod.Lex.left
  have h2 : (Token.Punctuator c :: rest).length ≤ ts.length := hl.1
  simp only [List.length_cons] at h2
  omega

end

/-- JsParser::identifier of ast.rs: take the next token; an Identifier
token becomes an Identifier node, anything else yields no node.  The
token is consumed either way. -/
def identifier : List Token → Option Node × List Token
  | [] => (none, [])
  | t :: rest =>
    match t with
    | Token.Identifier name => (some (Node.Identifier name), rest)
    | _ => (none, rest)

/-- JsParser::initialiser of ast.rs: take the next token; if it is the
punctuator equal sign, parse an assignment expression, otherwise yield
no node.  The token is consumed either way. -/
def initialiser : List Token → Option Node × List Token
  | [] => (none, [])
  | t :: rest =>
    match t with
    | Token.Punctuator c =>
      if c = '=' then (assignment_expression rest).val else (none, rest)
    | _ => (none, rest)

/-- JsParser::variable_declaration of ast.rs: parse an identifier and an
initialiser, wrap them in a VariableDeclarator, and return a
VariableDeclaration holding that single declarator. -/
def variable_declaration (ts : List Token) : Option Node × List Token :=
  let i := identifier ts
  let ini := initialiser i.2
  (some (Node.VariableDeclaration [some (Node.VariableDeclarator i.1 ini.1)]), ini.2)

/-- The trailing block of JsParser::statement: if the next token is the
punctuator semicolon, consume it; the produced node is unchanged. -/
def semicolon_check (nr : Option Node × List Token) : Option Node × List Token :=
  match nr.2 with
  | Token.Punctuator ';' :: ts2 => (nr.1, ts2)
  | _ => nr

/-- JsParser::statement of ast.rs: peek the next token; on the keyword
var, consume it and parse a variable declaration; on any other keyword
yield no node without consuming; otherwise wrap an
assignment-expression parse in an ExpressionStatement (always a present
node).  Finally apply the semicolon check. -/
def statement (ts : List Token) : Option Node × List Token :=
  match ts with
  | [] => (none, [])
  | t :: rest =>
    semicolon_check
      (match t with
       | Token.Keyword keyword =>
         if keyword = "var" then variable_declaration rest else (none, t :: rest)
       | _ =>
         (some (Node.ExpressionStatement (assignment_expression (t :: rest)).val.1),
          (assignment_expression (t :: rest)).val.2))

/-- JsParser::source_element of ast.rs: yield no node when the stream is
exhausted, otherwise parse a statement. -/
def source_element (ts : List Token) : Option Node × List Token :=
  match ts with
  | [] => (none, [])
  | _ :: _ => statement ts

lemma identifier_consumes (ts : List Token) : (identifier ts).2.length ≤ ts.length := by
  cases ts with
  | nil => simp [identifier]
  | cons t rest => cases t <;> simp [identifier]

lemma initialiser_consumes (ts : List Token) : (initialiser ts).2.length ≤ ts.length := by
  cases ts with
  | nil => simp [initialiser]
  | cons t rest =>
    cases t <;> simp only [initialiser]
    case Punctuator c =>
      split
      · have := (assignment_expression rest).property.1
        simp only [List.length_cons]
        omega
      · simp
    all_goals simp

lemma variable_declaration_consumes (ts : List Token) :
    (variable_declaration ts).2.length ≤ ts.length := by
  have h1 := identifier_consumes ts
  have h2 := initialiser_consumes (identifier ts).2
  simp only [variable_declaration]
  omega

lemma semicolon_check_snd_le (X : Option Node × List Token) (n : Option Node)
    (rest : List Token) (h : semicolon_check X = (n, rest)) :
    rest.length ≤ X.2.length := by
  unfold semicolon_check at h
  split at h
  · rename_i ts2 heq
    injection h with h1 h2
    subst h2
    rw [heq]
    simp
  · subst h
    simp

lemma statement_cons_not_keyword (t : Token) (r : List Token)
    (hk : ∀ kw, t ≠ Token.Keyword kw) :
    statement (t :: r) =
      semicolon_check
        (some (Node.ExpressionStatement (assignment_expression (t :: r)).val.1),
         (assignment_expression (t :: r)).val.2) := by
  cases t
  case Keyword kw => exact absurd rfl (hk kw)
  all_goals rfl

lemma statement_cons_keyword_var (r : List Token) :
    statement (Token.Keyword ("var") :: r) = semicolon_check (variable_declaration r) := by
  simp [statement]

lemma statement_cons_keyword_other (kw : String) (hk : kw ≠ "var") (r : List Token) :
    statement (Token.Keyword kw :: r) = (none, Token.Keyword kw :: r) := by
  simp [statement, hk, semicolon_check]

lemma token_keyword_dichotomy (t : Token) :
    (∃ kw, t = Token.Keyword kw) ∨ (∀ kw, t ≠ Token.Keyword kw) := by
  cases t
  case Keyword kw => exact Or.inl ⟨kw, rfl⟩
  all_goals exact Or.inr (fun kw h => Token.noConfusion h)

lemma statement_some_consumes (ts : List Token) (n : Node) (rest : List Token)
    (h : statement ts = (some n, rest)) : rest.length < ts.length := by
  cases ts with
  | nil => simp [statement] at h
  | cons t r =>
    rcases token_keyword_dichotomy t with ⟨kw, rfl⟩ | hnk
    · by_cases hk : kw = "var"
      · subst hk
        rw [statement_cons_keyword_var r] at h
        have hle : rest.length ≤ (variable_declaration r).2.length :=
          semicolon_check_snd_le _ _ _ h
        have hv := variable_declaration_consumes r
        simp only [List.length_cons]
        omega
      · rw [statement_cons_keyword_other kw hk r] at h
        exact absurd (congrArg Prod.fst h) (by simp)
    · rw [statement_cons_not_keyword t r hnk] at h
      have hle0 := semicolon_check_snd_le _ _ _ h
      have hle : rest.length ≤ (assignment_expression (t :: r)).val.2.length := hle0
      have ha : (assignment_expression (t :: r)).val.2.length < (t :: r).length :=
        (assignment_expression (t :: r)).property.2 (by simp)
      omega

lemma source_element_some_consumes (ts : List Token) (n : Node) (rest : List Token)
    (h : source_element ts = (some n, rest)) : rest.length < ts.length := by
  cases ts with
  | nil => simp [source_element] at h
  | cons t r => exact statement_some_consumes (t :: r) n rest h

/-- The loop of JsParser::parse_ast of ast.rs: repeatedly parse a source
element; push each produced node and stop at the first absent one,
returning the body built so far. -/
def parse_ast_body (ts : List Token) : List Node :=
  match h : source_element ts with
  | (none, _) => []
  | (some n, rest) => n :: parse_ast_body rest
termination_by ts.length
decreasing_by exact source_element_some_consumes ts n rest h

/-- JsParser::parse_ast of ast.rs: build the program whose body is the
list of parsed source elements. -/
def parse_ast (ts : List Token) : Program := { body := parse_ast_body ts }

lemma assignment_expression_val (ts : List Token) :
    (assignment_expression ts).val =
      match (additive_expression ts).val with
      | (expr, []) => (expr, [])
      | (expr, Token.Punctuator '=' :: rest) =>
        (some (Node.AssignmentExpression '=' expr (assignment_expression rest).val.1),
         (assignment_expression rest).val.2)
      | (expr, t2 :: r2) => (expr, t2 :: r2) := by
  rw [assignment_expression]
  rcases hA : additive_expression ts with ⟨⟨expr, ts1⟩, ha⟩
  cases ts1 with
  | nil => rfl
  | cons t2 r2 =>
    cases t2 <;> try rfl
    case Punctuator c =>
      rcases hB : assignment_expression r2 with ⟨⟨right, ts2⟩, hb⟩
      by_cases hc : c = '='
      · subst hc
        simp [hB]
      · simp [hc]

lemma additive_expression_val (ts : List Token) :
    (additive_expression ts).val =
      match left_hand_side_expression ts with
      | (left, []) => (left, [])
      | (left, Token.Punctuator c :: rest) =>
        if c = '+' ∨ c = '-' then
          (some (Node.AdditiveExpression c left (assignment_expression rest).val.1),
           (assignment_expression rest).val.2)
        else (left, Token.Punctuator c :: rest)
      | (left, t2 :: r2) => (left, t2 :: r2) := by
  rw [additive_expression]
  rcases hA : left_hand_side_expression_c ts with ⟨⟨left, ts1⟩, hl⟩
  have hv : left_hand_side_expression ts = (left, ts1) := by
    have hq : (left_hand_side_expression_c ts).val = (left, ts1) := by rw [hA]
    simpa [left_hand_side_expression_c] using hq
  rw [hv]
  cases ts1 with
  | nil => rfl
  | cons t2 r2 =>
    cases t2 <;> try rfl
    case Punctuator c =>
      rcases hB : assignment_expression r2 with ⟨⟨right, ts2⟩, hb⟩
      by_cases hc : c = '+' ∨ c = '-'
      · simp [hc, hB]
      · simp [hc]

lemma parse_ast_body_eq (ts : List Token) :
    parse_ast_body ts =
      match source_element ts with
      | (none, _) => []
      | (some n, rest) => n :: parse_ast_body rest := by
  rw [parse_ast_body]
  split
  · rename_i snd heq
    rw [heq]
  · rename_i n rest heq
    rw [heq]

/-- Tokens that start a primary expression: identifiers, string literals
and numbers. -/
def primary_start (t : Token) : Bool :=
  match t with
  | Token.Identifier _ => true
  | Token.StringLiteral _ => true
  | Token.Number _ => true
  | _ => false

lemma primary_start_lhs_some (t : Token) (r : List Token) (h : primary_start t = true) :
    ∃ nd, left_hand_side_expression (t :: r) = (some nd, r) := by
  cases t <;> simp [primary_start] at h <;>
    exact ⟨_, rfl⟩

lemma additive_val_some (ts : List Token) (nd : Node) (r : List Token)
    (h : left_hand_side_expression ts = (some nd, r)) :
    ∃ m, (additive_expression ts).val.1 = some m := by
  rw [additive_expression_val, h]
  cases r with
  | nil => exact ⟨nd, rfl⟩
  | cons t2 r2 =>
    cases t2 <;> try exact ⟨nd, rfl⟩
    case Punctuator c =>
      by_cases hc : c = '+' ∨ c = '-'
      · simp only [if_pos hc]
        exact ⟨_, rfl⟩
      · simp only [if_neg hc]
        exact ⟨nd, rfl⟩

lemma assignment_val_some (ts : List Token) (m : Node)
    (h : (additive_expression ts).val.1 = some m) :
    ∃ k, (assignment_expression ts).val.1 = some k := by
  rw [assignment_expression_val]
  rcases hA : (additive_expression ts).val with ⟨expr, ts1⟩
  rw [hA] at h
  simp only at h
  subst h
  cases ts1 with
  | nil => exact ⟨m, rfl⟩
  | cons t2 r2 =>
    cases t2 <;> try exact ⟨m, rfl⟩
    case Punctuator c =>
      by_cases hc2 : c = '='
      · subst hc2
        exact ⟨_, rfl⟩
      · split <;> simp_all
        rename_i heq
        exact ⟨m, heq.1.symm⟩

lemma semicolon_check_fst_eq (X : Option Node × List Token) :
    ∃ ts2, semicolon_check X = (X.1, ts2) := by
  unfold semicolon_check
  split
  · exact ⟨_, rfl⟩
  · exact ⟨X.2, rfl⟩

lemma parse_ast_body_length (ts : List Token) :
    (parse_ast_body ts).length ≤ ts.length := by
  have H : ∀ n (us : List Token), us.length ≤ n → (parse_ast_body us).length ≤ us.length := by
    intro n
    induction n with
    | zero =>
      intro us h
      have : us = [] := List.eq_nil_of_length_eq_zero (Nat.le_zero.mp h)
      subst this
      rw [parse_ast_body_eq]
      simp [source_element]
    | succ k ih =>
      intro us h
      rw [parse_ast_body_eq]
      rcases hS : source_element us with ⟨ond, rest⟩
      cases ond with
      | none => simp
      | some n =>
        have hlt : rest.length < us.length := source_element_some_consumes us n rest hS
        have hr : rest.length ≤ k := by omega
        have := ih rest hr
        simp only [List.length_cons]
        omega
  exact H ts.length ts (Nat.le_refl _)

/-- C1: the program var foo=42; var result=foo+1; parses to the expected
two VariableDeclaration statements, but executing it does not bind foo
and result: JsRuntime::eval has no Environment and its catch-all hits
the todo panic on the very first VariableDeclaration node, so execution
aborts instead of producing the bindings foo = 42 and result = 43. -/
theorem c1_var_program_execution_panics :
    parse_ast (tokenize ("var foo=42; var result=foo+1;")) =
      { body := [
        Node.VariableDeclaration [some (Node.VariableDeclarator
          (some (Node.Identifier ("foo"))) (some (Node.NumericLiteral 42)))],
        Node.VariableDeclaration [some (Node.VariableDeclarator
          (some (Node.Identifier ("result")))
          (some (Node.AdditiveExpression '+' (some (Node.Identifier ("foo")))
            (some (Node.NumericLiteral 1)))))]] } ∧
    execute (parse_ast (tokenize ("var foo=42; var result=foo+1;"))) =
      Except.error Panic.todo := by
  have ht : tokenize ("var foo=42; var result=foo+1;") =
      [Token.Keyword ("var"), Token.Identifier ("foo"), Token.Punctuator '=', Token.Number 42,
       Token.Punctuator ';', Token.Keyword ("var"), Token.Identifier ("result"),
       Token.Punctuator '=', Token.Identifier ("foo"), Token.Punctuator '+', Token.Number 1,
       Token.Punctuator ';'] := by decide
  have hp : parse_ast (tokenize ("var foo=42; var result=foo+1;")) =
      { body := [
        Node.VariableDeclaration [some (Node.VariableDeclarator
          (some (Node.Identifier ("foo"))) (some (Node.NumericLiteral 42)))],
        Node.VariableDeclaration [some (Node.VariableDeclarator
          (some (Node.Identifier ("result")))
          (some (Node.AdditiveExpression '+' (some (Node.Identifier ("foo")))
            (some (Node.NumericLiteral 1)))))]] } := by
    rw [ht]
    simp [parse_ast, parse_ast_body_eq, source_element, statement, semicolon_check,
      assignment_expression_val, additive_expression_val, left_hand_side_expression,
      member_assignment, primary_expression, variable_declaration, identifier, initialiser]
  refine ⟨hp, ?_⟩
  rw [hp]
  simp [execute, runBody, eval]

/-- C2: evaluation does not surface every error condition as a
recoverable result: executing the parsed program var foo=42; hits the
todo panic of the eval catch-all (there is no runtime error type at
all), and evaluating an Identifier node — the unbound-identifier case —
panics likewise instead of reporting an error. -/
theorem c2_eval_panics_instead_of_reporting :
    execute (parse_ast (tokenize ("var foo=42;"))) = Except.error Panic.todo ∧
    eval (some (Node.Identifier ("x"))) = Except.error Panic.todo := by
  constructor
  · have ht : tokenize ("var foo=42;") =
        [Token.Keyword ("var"), Token.Identifier ("foo"), Token.Punctuator '=',
         Token.Number 42, Token.Punctuator ';'] := by decide
    have hp : parse_ast (tokenize ("var foo=42;")) =
        { body := [Node.VariableDeclaration [some (Node.VariableDeclarator
            (some (Node.Identifier ("foo"))) (some (Node.NumericLiteral 42)))]] } := by
      rw [ht]
      simp [parse_ast, parse_ast_body_eq, source_element, statement, semicolon_check,
        assignment_expression_val, additive_expression_val, left_hand_side_expression,
        member_assignment, primary_expression, variable_declaration, identifier, initialiser]
    rw [hp]
    simp [execute, runBody, eval]
  · simp [eval]

/-- C3: the additive operators have no explicit overflow policy:
evaluating 2 - 3 reaches the native u64 subtraction, which underflows
and panics in a checked build (subUnderflow), and adding 1 to the
largest u64 value overflows and panics likewise (addOverflow), instead
of yielding a policy-governed result. -/
theorem c3_arithmetic_panics_on_out_of_range :
    eval (some (Node.AdditiveExpression '-' (some (Node.NumericLiteral 2))
      (some (Node.NumericLiteral 3)))) = Except.error Panic.subUnderflow ∧
    eval (some (Node.AdditiveExpression '+' (some (Node.NumericLiteral (2 ^ 64 - 1)))
      (some (Node.NumericLiteral 1)))) = Except.error Panic.addOverflow := by
  constructor
  · simp [eval, RuntimeValue.sub, Except.map]
  · simp [eval, RuntimeValue.add, Except.map]

/-- C4: evaluating any AssignmentExpression yields None without
evaluating the right-hand side, without writing any binding and without
raising an error — contradicting the claim that an Identifier target is
bound to the evaluated right-hand value and other targets produce an
unsupported-assignment-target error. -/
theorem c4_assignment_always_evaluates_to_none (op : Char) (l r : Option Node) :
    eval (some (Node.AssignmentExpression op l r)) = Except.ok none := by
  simp [eval]

/-- C5 counterexample: parsing the single-token stream consisting of the
punctuator semicolon produces a Program whose one statement is an
ExpressionStatement with a None child, refuting the claim that no
ExpressionStatement in a parsed Program has a None child. -/
theorem c5_counterexample_semicolon_program :
    parse_ast [Token.Punctuator ';'] = { body := [Node.ExpressionStatement none] } := by
  simp [parse_ast, parse_ast_body_eq, source_element, statement, semicolon_check,
    assignment_expression_val, additive_expression_val, left_hand_side_expression,
    member_assignment, primary_expression]

/-- C5 amended: the universal well-formedness invariant fails — a parsed
Program can contain an ExpressionStatement with a None child, as the
lone-semicolon counterexample shows — but a statement whose leading
token starts a primary expression (an identifier, string literal or
number token) always parses to an ExpressionStatement whose child is
present. -/
theorem c5_amended_primary_start_wellformed (t : Token) (r : List Token)
    (hp : primary_start t = true) :
    ∃ e ts2, statement (t :: r) = (some (Node.ExpressionStatement (some e)), ts2) := by
  have hk : ∀ kw, t ≠ Token.Keyword kw := by
    intro kw
    cases t <;> simp [primary_start] at hp ⊢
  rw [statement_cons_not_keyword t r hk]
  obtain ⟨nd, hlhs⟩ := primary_start_lhs_some t r hp
  obtain ⟨m, hm⟩ := additive_val_some (t :: r) nd r hlhs
  obtain ⟨k, hkk⟩ := assignment_val_some (t :: r) m hm
  obtain ⟨ts2, hsc⟩ := semicolon_check_fst_eq
    (some (Node.ExpressionStatement (assignment_expression (t :: r)).val.1),
     (assignment_expression (t :: r)).val.2)
  refine ⟨k, ts2, ?_⟩
  rw [hsc]
  simp [hkk]

/-- C5 witness: the amended statement applied to the numeric token 42. -/
theorem c5_amended_witness :
    primary_start (Token.Number 42) = true ∧
    ∃ e ts2, statement [Token.Number 42] =
      (some (Node.ExpressionStatement (some e)), ts2) :=
  ⟨rfl, c5_amended_primary_start_wellformed (Token.Number 42) [] rfl⟩

/-- C6: the parser does return the Program built so far at a legitimate
end of input (empty source gives an empty Program), but malformed input
is not surfaced as a parse failure: the source 1 + , which ends in the
middle of an additive expression, still parses to a Program, with the
missing right operand silently recorded as a None child. -/
theorem c6_mid_expression_end_not_reported :
    parse_ast (tokenize ("")) = { body := [] } ∧
    parse_ast (tokenize ("1 +")) =
      { body := [Node.ExpressionStatement (some (Node.AdditiveExpression '+'
          (some (Node.NumericLiteral 1)) none))] } := by
  constructor
  · simp [tokenize, parse_ast, parse_ast_body_eq, source_element, lexChars]
  · have ht : tokenize ("1 +") = [Token.Number 1, Token.Punctuator '+'] := by decide
    rw [ht]
    simp [parse_ast, parse_ast_body_eq, source_element, statement, semicolon_check,
      assignment_expression_val, additive_expression_val, left_hand_side_expression,
      member_assignment, primary_expression]

/-- C7: the additive production recurses into the assignment production
for its right operand, so chained additive input associates to the
right: for all numeric literals a, b, c the token stream of a - b + c
parses to AdditiveExpression with the minus at the root and the plus
nested in its right operand, and the source 1 - 2 + 3 lexes to exactly
that token stream. -/
theorem c7_chained_additive_right_associated :
    (∀ a b c : Nat,
      parse_ast [Token.Number a, Token.Punctuator '-', Token.Number b,
        Token.Punctuator '+', Token.Number c] =
        { body := [Node.ExpressionStatement (some (Node.AdditiveExpression '-'
            (some (Node.NumericLiteral a))
            (some (Node.AdditiveExpression '+' (some (Node.NumericLiteral b))
              (some (Node.NumericLiteral c))))))] }) ∧
    tokenize ("1 - 2 + 3") =
      [Token.Number 1, Token.Punctuator '-', Token.Number 2,
       Token.Punctuator '+', Token.Number 3] := by
  constructor
  · intro a b c
    simp [parse_ast, parse_ast_body_eq, source_element, statement, semicolon_check,
      assignment_expression_val, additive_expression_val, left_hand_side_expression,
      member_assignment, primary_expression]
  · decide

/-- C8: evaluating an AdditiveExpression evaluates the left operand
first — if it yields nothing the result is nothing and the right
operand is never reached — then the right operand, whose nothing also
propagates; only when both yield values is the plus or minus operator
applied. -/
theorem c8_additive_none_propagation (op : Char) (l r : Option Node) :
    (eval l = Except.ok none →
      eval (some (Node.AdditiveExpression op l r)) = Except.ok none) ∧
    (∀ v, eval l = Except.ok (some v) → eval r = Except.ok none →
      eval (some (Node.AdditiveExpression op l r)) = Except.ok none) ∧
    (∀ v w, eval l = Except.ok (some v) → eval r = Except.ok (some w) →
      eval (some (Node.AdditiveExpression '+' l r)) = (RuntimeValue.add v w).map some ∧
      eval (some (Node.AdditiveExpression '-' l r)) = (RuntimeValue.sub v w).map some) := by
  refine ⟨?_, ?_, ?_⟩
  · intro h
    simp [eval, h]
  · intro v hl hr
    simp [eval, hl, hr]
  · intro v w hl hr
    constructor
    · simp [eval, hl, hr]
    · simp [eval, hl, hr]

/-- C8 witness: the propagation cases at concrete operands — a
MemberExpression operand evaluates to nothing on either side, and two
numeric literals reach the addition operator. -/
theorem c8_witness :
    eval (some (Node.AdditiveExpression '+' (some (Node.MemberExpression none none))
      (some (Node.NumericLiteral 5)))) = Except.ok none ∧
    eval (some (Node.AdditiveExpression '+' (some (Node.NumericLiteral 5))
      (some (Node.MemberExpression none none)))) = Except.ok none ∧
    eval (some (Node.AdditiveExpression '+' (some (Node.NumericLiteral 1))
      (some (Node.NumericLiteral 2)))) =
      (RuntimeValue.add (RuntimeValue.Number 1) (RuntimeValue.Number 2)).map some :=
  ⟨(c8_additive_none_propagation '+' (some (Node.MemberExpression none none))
      (some (Node.NumericLiteral 5))).1 (by simp [eval]),
   (c8_additive_none_propagation '+' (some (Node.NumericLiteral 5))
      (some (Node.MemberExpression none none))).2.1 (RuntimeValue.Number 5)
      (by simp [eval]) (by simp [eval]),
   ((c8_additive_none_propagation '+' (some (Node.NumericLiteral 1))
      (some (Node.NumericLiteral 2))).2.2 (RuntimeValue.Number 1) (RuntimeValue.Number 2)
      (by simp [eval]) (by simp [eval])).1⟩

/-- C9: the source 1 + 2 parses to a single ExpressionStatement wrapping
AdditiveExpression with operator plus, left NumericLiteral 1 and right
NumericLiteral 2; evaluating that statement yields Number 3 and
executing the program completes without error. -/
theorem c9_one_plus_two_round_trip :
    parse_ast (tokenize ("1 + 2")) =
      { body := [Node.ExpressionStatement (some (Node.AdditiveExpression '+'
          (some (Node.NumericLiteral 1)) (some (Node.NumericLiteral 2))))] } ∧
    eval (some (Node.ExpressionStatement (some (Node.AdditiveExpression '+'
      (some (Node.NumericLiteral 1)) (some (Node.NumericLiteral 2)))))) =
      Except.ok (some (RuntimeValue.Number 3)) ∧
    execute (parse_ast (tokenize ("1 + 2"))) = Except.ok () := by
  have ht : tokenize ("1 + 2") = [Token.Number 1, Token.Punctuator '+', Token.Number 2] := by
    decide
  have hp : parse_ast (tokenize ("1 + 2")) =
      { body := [Node.ExpressionStatement (some (Node.AdditiveExpression '+'
          (some (Node.NumericLiteral 1)) (some (Node.NumericLiteral 2))))] } := by
    rw [ht]
    simp [parse_ast, parse_ast_body_eq, source_element, statement, semicolon_check,
      assignment_expression_val, additive_expression_val, left_hand_side_expression,
      member_assignment, primary_expression]
  refine ⟨hp, ?_, ?_⟩
  · simp [eval, RuntimeValue.add, Except.map]
  · rw [hp]
    simp [execute, runBody, eval, RuntimeValue.add, Except.map]

/-- C10: parse_ast terminates on every finite token stream with a
Program of at most as many statements as there are tokens — the loop
runs at most one iteration more than the token count — because every
statement parse that produces a node consumes at least one token. -/
theorem c10_parse_ast_terminates_with_bound (ts : List Token) :
    (parse_ast ts).body.length ≤ ts.length ∧
    (∀ n rest, statement ts = (some n, rest) → rest.length < ts.length) := by
  constructor
  · exact parse_ast_body_length ts
  · intro n rest h
    exact statement_some_consumes ts n rest h

/-- C10 witness: the bound applied to the single-token stream holding
the number 7, whose statement parse consumes the whole stream. -/
theorem c10_witness :
    (parse_ast [Token.Number 7]).body.length ≤ 1 ∧
    ([] : List Token).length < ([Token.Number 7] : List Token).length :=
  ⟨(c10_parse_ast_terminates_with_bound [Token.Number 7]).1,
   (c10_parse_ast_terminates_with_bound [Token.Number 7]).2
     (Node.ExpressionStatement (some (Node.NumericLiteral 7))) []
     (by simp [statement, semicolon_check, assignment_expression_val,
       additive_expression_val, left_hand_side_expression, member_assignment,
       primary_expression])⟩

end Saba
